import Mathlib

/-!
Verification of the module dependency graph engine of
`code-analyzer/scripts/dependency_analyzer.py`.

The Python core is shallowly embedded: Python `str` is `List Char`
(`Str` below), Python `float` is `ℚ` (all arithmetic the engine performs
on metric values is exact at the granularity the claims need), Python
insertion-ordered `dict` is an association list with first-match lookup
and in-place first-match update, and Python lists are Lean lists with
`append`.  `_add_dependency` mutates its argument record in place
(`dependency.source_module = source`), so its embedding returns the
post-call value of the record alongside the new registry, which is what
a caller aliasing the record observes.
-/

namespace DepAnalyzer

/-- Python `str` as a list of characters. -/
abbrev Str := List Char

/-- Python string comparison `a < b`: lexicographic on code points. -/
def strLt : Str → Str → Bool
  | [], [] => false
  | [], _ :: _ => true
  | _ :: _, [] => false
  | a :: as, b :: bs => if a < b then true else if a = b then strLt as bs else false

/-- Python substring test `needle in hay`. -/
def strHasSub : Str → Str → Bool
  | [], needle => needle.isEmpty
  | c :: t, needle => needle.isPrefixOf (c :: t) || strHasSub t needle

/-- Python `s.lower()` (ASCII case folding, which is all the engine
compares: the literals `"interface"` and `"abstract"`). -/
def strLower (s : Str) : Str := s.map Char.toLower

/-- `DependencyType` enum of the source (ten closed variants). -/
inductive DependencyType where
  | IMPORT | INHERIT | COMPOSITION | AGGREGATION | ASSOCIATION
  | CALL | DATA_FLOW | CONFIG | DATABASE | EXTERNAL
  deriving DecidableEq, Repr

/-- `Dependency` dataclass: one raw edge record. -/
structure Dependency where
  source_module : Str
  target_module : Str
  dependency_type : DependencyType
  strength : ℚ := 1
  file_path : Str := []
  line_number : Int := 0
  element_name : Str := []
  description : Str := []
  deriving DecidableEq, Repr

/-- `ModuleDependencyInfo` dataclass: one node of the registry.
(The auxiliary `metrics` snapshot dict of the source is omitted: no
claim reads it.) -/
structure ModuleDependencyInfo where
  module_name : Str
  module_path : Str := []
  afferent_coupling : Nat := 0
  efferent_coupling : Nat := 0
  instability : ℚ := 0
  abstraction : ℚ := 0
  distance : ℚ := 0
  dependencies : List Dependency := []
  dependents : List Dependency := []
  core_classes : List Str := []
  public_interfaces : List Str := []
  deriving DecidableEq, Repr

/-- The builder's `self.modules`: an insertion-ordered `dict` from module
name to node, embedded as an association list (new keys are appended). -/
abbrev Modules := List (Str × ModuleDependencyInfo)

/-- `dict` lookup (`modules.get(k)` / `modules[k]`): first matching key. -/
def dict_get (m : Modules) (k : Str) : Option ModuleDependencyInfo :=
  match m with
  | [] => none
  | kv :: rest => if kv.1 = k then some kv.2 else dict_get rest k

/-- In-place update of the value stored under an existing key (Python
mutates the node object held in the dict; position is preserved). -/
def dict_modify (m : Modules) (k : Str) (f : ModuleDependencyInfo → ModuleDependencyInfo) :
    Modules :=
  match m with
  | [] => []
  | kv :: rest => if kv.1 = k then (kv.1, f kv.2) :: rest else kv :: dict_modify rest k f

/-- `DependencyGraph` dataclass (metadata is derived reporting data no
claim reads, so it is omitted). -/
structure DependencyGraph where
  nodes : Modules := []
  edges : List Dependency := []
  deriving DecidableEq, Repr

/-- The fixed stripped-prefix table of `_normalize_module_name`. -/
def module_prefixes : List Str :=
  ["src.".toList, "lib.".toList, "core.".toList, "app.".toList]

/-- `_normalize_module_name`: empty name defaults to `"root"`; otherwise
truncate at the first `'.'` (when one occurs), then strip each table
entry found at the head (in table order), then keep the segment before
the first `'/'` (when one occurs). -/
def normalize_module_name (module_name : Str) : Str :=
  if module_name.isEmpty then "root".toList
  else
    let module_name :=
      if module_name.contains '.' then module_name.takeWhile (· != '.') else module_name
    let module_name :=
      module_prefixes.foldl
        (fun n p => if p.isPrefixOf n then n.drop p.length else n) module_name
    if module_name.contains '/' then module_name.takeWhile (· != '/') else module_name

/-- A fresh node as `_add_dependency` creates one:
`ModuleDependencyInfo(module_name=name, module_path='')`. -/
def fresh_node (name : Str) : ModuleDependencyInfo :=
  { module_name := name }

/-- `if name not in self.modules: self.modules[name] = ModuleDependencyInfo(...)`. -/
def ensure_node (m : Modules) (name : Str) : Modules :=
  if (dict_get m name).isSome then m else m ++ [(name, fresh_node name)]

/-- `_add_dependency`.  Returns the updated registry together with the
post-call value of the argument record (the source mutates
`dependency.source_module` / `.target_module` to the normalized names
exactly when the forward record is newly appended). -/
def add_dependency (modules : Modules) (dependency : Dependency) :
    Modules × Dependency :=
  let source := normalize_module_name dependency.source_module
  let target := normalize_module_name dependency.target_module
  if source = target then (modules, dependency)
  else
    let modules := ensure_node modules source
    let modules := ensure_node modules target
    let existing :=
      ((dict_get modules source).getD (fresh_node source)).dependencies.filter
        (fun d => decide (d.target_module = target ∧
          d.dependency_type = dependency.dependency_type))
    let dependency' :=
      if existing.isEmpty then
        { dependency with source_module := source, target_module := target }
      else dependency
    let modules :=
      if existing.isEmpty then
        dict_modify modules source
          (fun info => { info with dependencies := info.dependencies ++ [dependency'] })
      else modules
    let reverse_dep : Dependency :=
      { source_module := target
        target_module := source
        dependency_type := dependency.dependency_type
        strength := dependency.strength
        file_path := dependency.file_path
        line_number := dependency.line_number
        element_name := dependency.element_name }
    let existing_rev :=
      ((dict_get modules target).getD (fresh_node target)).dependents.filter
        (fun d => decide (d.target_module = source))
    let modules :=
      if existing_rev.isEmpty then
        dict_modify modules target
          (fun info => { info with dependents := info.dependents ++ [reverse_dep] })
      else modules
    (modules, dependency')

/-- Registry state after a sequence of `_add_dependency` calls starting
from the builder's initial empty `self.modules`. -/
def build_modules (records : List Dependency) : Modules :=
  records.foldl (fun m r => (add_dependency m r).1) []

/-- First loop body of `_calculate_metrics`: recompute both coupling
counts from the edge lists and derive instability `Ce / (Ca + Ce)`
(guarded to `0` when both counts are zero). -/
def coupling_metrics (module : ModuleDependencyInfo) : ModuleDependencyInfo :=
  let ce := module.dependencies.length
  let ca := module.dependents.length
  let total := ca + ce
  { module with
    efferent_coupling := ce
    afferent_coupling := ca
    instability := if total > 0 then (ce : ℚ) / (total : ℚ) else 0 }

/-- `_calculate_abstraction` loop body: fraction of `core_classes` whose
lower-cased name contains `"interface"` or `"abstract"`, over
`len(core_classes) + len(public_interfaces)`, guarded to `0`. -/
def abstraction_metrics (module : ModuleDependencyInfo) : ModuleDependencyInfo :=
  let abstract_count :=
    (module.core_classes.filter (fun cls =>
      strHasSub (strLower cls) "interface".toList ||
      strHasSub (strLower cls) "abstract".toList)).length
  let total_count := module.core_classes.length + module.public_interfaces.length
  { module with
    abstraction := if total_count > 0 then (abstract_count : ℚ) / (total_count : ℚ) else 0 }

/-- `_calculate_distance` loop body: `D = |A + I - 1|`. -/
def distance_metrics (module : ModuleDependencyInfo) : ModuleDependencyInfo :=
  { module with distance := |module.abstraction + module.instability - 1| }

/-- `_calculate_metrics`: the coupling/instability loop, then the
abstraction pass, then the distance pass (each per node, in place). -/
def calculate_metrics (m : Modules) : Modules :=
  let m := m.map (fun kv => (kv.1, coupling_metrics kv.2))
  let m := m.map (fun kv => (kv.1, abstraction_metrics kv.2))
  m.map (fun kv => (kv.1, distance_metrics kv.2))

/-- `_build_graph_structure`: nodes are the registry entries, edges are
all outgoing dependency records in registry order. -/
def build_graph_structure (m : Modules) : DependencyGraph :=
  { nodes := m, edges := (m.map (fun kv => kv.2.dependencies)).flatten }

/-! ## CycleDetector -/

/-- The mutable closure state shared by `detect_cycles` and its nested
`dfs`: `visited` and `rec_stack` sets, the `path` stack, and the
accumulated `cycles`.  Note the source never unwinds `path`/`rec_stack`
on the `return True` branches, so stale entries persist across
traversals; the embedding threads the state faithfully. -/
structure DfsState where
  visited : List Str
  rec_stack : List Str
  path : List Str
  cycles : List (List Str)
  deriving DecidableEq, Repr

/-- The `for dep in node_info.dependencies` loop of the nested `dfs`;
the recursive `dfs(neighbor)` call is supplied as the parameter `go`
(the embedding of `dfs` below passes itself at one fuel less, keeping
both functions structurally recursive).  On loop exhaustion the source
pops `path` and removes `node` from `rec_stack`; this cleanup is
skipped on every `return True` path. -/
def dfs_neighbors (go : Str → DfsState → Bool × DfsState) (node : Str) :
    List Dependency → DfsState → Bool × DfsState
  | [], st =>
    (false, { st with path := st.path.dropLast, rec_stack := st.rec_stack.erase node })
  | dep :: rest, st =>
    let neighbor := dep.target_module
    if neighbor ∈ st.visited then
      if neighbor ∈ st.rec_stack then
        let cycle_start := st.path.indexOf neighbor
        let cycle := st.path.drop cycle_start ++ [neighbor]
        (true, { st with cycles := st.cycles ++ [cycle] })
      else dfs_neighbors go node rest st
    else
      match go neighbor st with
      | (true, st') => (true, st')
      | (false, st') => dfs_neighbors go node rest st'

/-- Nested `dfs(node)` of `detect_cycles`.  The source recursion
terminates because it only recurses into unvisited nodes; the embedding
makes that a decreasing `fuel` argument (callers pass more fuel than
there are distinct reachable names, so the `0` branch is unreachable). -/
def dfs (graph : DependencyGraph) : Nat → Str → DfsState → Bool × DfsState
  | 0, _, st => (false, st)
  | fuel + 1, node, st =>
    let st := { st with
      visited := node :: st.visited
      rec_stack := node :: st.rec_stack
      path := st.path ++ [node] }
    let deps :=
      match dict_get graph.nodes node with
      | some info => info.dependencies
      | none => []
    dfs_neighbors (fun neighbor st' => dfs graph fuel neighbor st') node deps st

/-- `_normalize_cycle`'s search for the index of the lexicographically
smallest entry among `cycle[0] .. cycle[len-2]` (the final closing
duplicate is excluded); ties keep the earliest index. -/
def find_min_idx (cycle : List Str) : Nat :=
  (List.range' 1 (cycle.length - 2)).foldl
    (fun min_idx i =>
      if strLt (cycle.getD i []) (cycle.getD min_idx []) then i else min_idx) 0

/-- `_normalize_cycle`: cycles of at most two entries are returned
unchanged, otherwise `cycle[min:-1] + cycle[:min] + [cycle[min]]`. -/
def normalize_cycle (cycle : List Str) : List Str :=
  if cycle.length ≤ 2 then cycle
  else
    let min_idx := find_min_idx cycle
    cycle.dropLast.drop min_idx ++ cycle.take min_idx ++ [cycle.getD min_idx []]

/-- Python `set(a) == set(b)`: mutual membership. -/
def set_eqv (a b : List Str) : Bool :=
  a.all (fun x => decide (x ∈ b)) && b.all (fun x => decide (x ∈ a))

/-- `_unique_cycles`: keep the first cycle of each member-name set,
after rotating each candidate with `_normalize_cycle`. -/
def unique_cycles (cycles : List (List Str)) : List (List Str) :=
  cycles.foldl
    (fun unique cycle =>
      let normalized := normalize_cycle cycle
      if unique.any (fun existing => set_eqv normalized existing) then unique
      else unique ++ [normalized]) []

/-- `detect_cycles`: one shared `DfsState`, a DFS from every node not
yet visited (in registry insertion order), then deduplication.  The
fuel passed to `dfs` exceeds the number of distinct module names any
traversal can push (registry keys plus edge targets), so fuel never
runs out. -/
def detect_cycles (graph : DependencyGraph) : List (List Str) :=
  let fuel :=
    graph.nodes.length + (graph.nodes.map (fun kv => kv.2.dependencies.length)).sum + 1
  let st := graph.nodes.foldl
    (fun st kv => if kv.1 ∈ st.visited then st else (dfs graph fuel kv.1 st).2)
    { visited := [], rec_stack := [], path := [], cycles := [] }
  unique_cycles st.cycles

/-- `_assess_severity`'s four outcomes.  The source returns the strings
`严重（双向直接依赖）` / `高（短循环依赖）` / `中（中等长度循环）` /
`低（长循环链）`, rendered here as an enum (critical/high/medium/low). -/
inductive Severity where
  | critical | high | medium | low
  deriving DecidableEq, Repr

/-- `_assess_severity`: a function of `len(cycle) - 1` only. -/
def assess_severity (cycle : List Str) : Severity :=
  let length := cycle.length - 1
  if length = 2 then .critical
  else if length ≤ 3 then .high
  else if length ≤ 5 then .medium
  else .low

/-- One entry of `get_cycle_details` (the `breaking_suggestions` field
is four fixed text templates, omitted as presentational). -/
structure CycleDetail where
  cycle_id : Nat
  modules : List Str
  length : Nat
  severity : Severity
  deriving DecidableEq, Repr

/-- `get_cycle_details`: 1-based ids, `length = len(cycle) - 1`. -/
def get_cycle_details (cycles : List (List Str)) : List CycleDetail :=
  cycles.enum.map (fun p =>
    { cycle_id := p.1 + 1
      modules := p.2
      length := p.2.length - 1
      severity := assess_severity p.2 })

/-! ## CouplingAnalyzer -/

/-- The `instability_distribution` buckets of `_calculate_summary`. -/
structure InstabilityDistribution where
  stable : Nat
  moderate : Nat
  unstable : Nat
  deriving DecidableEq, Repr

/-- The non-empty-graph payload of `_calculate_summary`. -/
structure CouplingSummary where
  total_modules : Nat
  total_dependencies : Nat
  average_instability : ℚ
  average_abstraction : ℚ
  instability_distribution : InstabilityDistribution
  deriving DecidableEq, Repr

/-- Python `round(x, 3)` idealized over ℚ: round half to even at three
decimal places. -/
def py_round3 (q : ℚ) : ℚ :=
  let y := q * 1000
  let f : Int := ⌊y⌋
  let r := y - (f : ℚ)
  let n : Int :=
    if r > 1 / 2 then f + 1
    else if r < 1 / 2 then f
    else if f % 2 = 0 then f else f + 1
  (n : ℚ) / 1000

/-- `_calculate_summary`: the empty dict `{}` returned on a node-less
graph is `none`; otherwise the populated summary. -/
def calculate_summary (graph : DependencyGraph) : Option CouplingSummary :=
  if graph.nodes.isEmpty then none
  else
    let modules := graph.nodes.map (·.2)
    let avg_instability := (modules.map (·.instability)).sum / (modules.length : ℚ)
    let avg_abstraction := (modules.map (·.abstraction)).sum / (modules.length : ℚ)
    some
      { total_modules := modules.length
        total_dependencies := graph.edges.length
        average_instability := py_round3 avg_instability
        average_abstraction := py_round3 avg_abstraction
        instability_distribution :=
          { stable := (modules.filter (fun m => decide (m.instability < 0.3))).length
            moderate :=
              (modules.filter (fun m =>
                decide (0.3 ≤ m.instability ∧ m.instability ≤ 0.7))).length
            unstable := (modules.filter (fun m => decide (m.instability > 0.7))).length } }

/-- `risk_level` values of `_identify_high_coupling_modules`. -/
inductive RiskLevel where
  | high | medium
  deriving DecidableEq, Repr

/-- One entry of `_identify_high_coupling_modules`. -/
structure HighCouplingEntry where
  module : Str
  total_coupling : Nat
  afferent : Nat
  efferent : Nat
  instability : ℚ
  risk_level : RiskLevel
  deriving DecidableEq, Repr

/-- Stable descending insertion by `total_coupling` (extensionally the
stable `list.sort(key=..., reverse=True)` of the source). -/
def insert_desc (x : HighCouplingEntry) :
    List HighCouplingEntry → List HighCouplingEntry
  | [] => [x]
  | y :: t => if y.total_coupling ≤ x.total_coupling then x :: y :: t else y :: insert_desc x t

/-- Stable sort, descending by `total_coupling`. -/
def sort_desc : List HighCouplingEntry → List HighCouplingEntry
  | [] => []
  | x :: t => insert_desc x (sort_desc t)

/-- `_identify_high_coupling_modules`: nodes whose total coupling meets
the threshold, `risk_level` high above twice the threshold, sorted
descending by total coupling. -/
def identify_high_coupling_modules (graph : DependencyGraph) (threshold : Nat) :
    List HighCouplingEntry :=
  sort_desc (graph.nodes.filterMap (fun kv =>
    let total_coupling := kv.2.afferent_coupling + kv.2.efferent_coupling
    if total_coupling ≥ threshold then
      some
        { module := kv.1
          total_coupling := total_coupling
          afferent := kv.2.afferent_coupling
          efferent := kv.2.efferent_coupling
          instability := kv.2.instability
          risk_level := if total_coupling > threshold * 2 then .high else .medium }
    else none))

/-- Violation tags of `_detect_architecture_violations`. -/
inductive ViolationType where
  | cyclic_dependency | unstable_to_unstable
  deriving DecidableEq, Repr

/-- Violation severities used by `_detect_architecture_violations`. -/
inductive ViolationSeverity where
  | high | medium
  deriving DecidableEq, Repr

/-- One violation entry (`vfrom`/`vto` embed the source's `from`/`to`
keys, `from` being reserved in Lean; the formatted `description` string
is presentational and omitted). -/
structure Violation where
  violation_type : ViolationType
  severity : ViolationSeverity
  modules : List Str := []
  vfrom : Str := []
  vto : Str := []
  deriving DecidableEq, Repr

/-- `_detect_architecture_violations`: one high-severity entry per
detected cycle, then a medium-severity entry for every dependency whose
two endpoints both have instability above `0.7`. -/
def detect_architecture_violations (graph : DependencyGraph) : List Violation :=
  let cycle_violations := (detect_cycles graph).map (fun cycle =>
    { violation_type := ViolationType.cyclic_dependency
      severity := ViolationSeverity.high
      modules := cycle : Violation })
  let unstable_violations := graph.nodes.foldl
    (fun acc kv =>
      if kv.2.instability > (0.7 : ℚ) then
        acc ++ kv.2.dependencies.filterMap (fun dep =>
          match dict_get graph.nodes dep.target_module with
          | some target =>
            if target.instability > (0.7 : ℚ) then
              some
                { violation_type := ViolationType.unstable_to_unstable
                  severity := ViolationSeverity.medium
                  vfrom := kv.1
                  vto := dep.target_module }
            else none
          | none => none)
      else acc) []
  cycle_violations ++ unstable_violations

/-- Recommendation categories of `_generate_recommendations`. -/
inductive RecCategory where
  | reduce_coupling | dependency_inversion | increase_abstraction
  deriving DecidableEq, Repr

/-- Recommendation priorities of `_generate_recommendations`. -/
inductive RecPriority where
  | high | medium
  deriving DecidableEq, Repr

/-- One recommendation (the fixed `suggestion` advisory text is
presentational and omitted). -/
structure Recommendation where
  category : RecCategory
  priority : RecPriority
  modules : List Str := []
  deriving DecidableEq, Repr

/-- `_generate_recommendations`: a `reduce_coupling` entry naming the
top three high-coupling modules when any exist, the unconditional
`dependency_inversion` entry, and an `increase_abstraction` entry for
nodes with abstraction below `0.2` and instability above `0.5` when any
exist. -/
def generate_recommendations (graph : DependencyGraph) : List Recommendation :=
  let high_coupling := identify_high_coupling_modules graph 10
  let recs : List Recommendation :=
    if high_coupling.isEmpty then []
    else
      [{ category := RecCategory.reduce_coupling
         priority := RecPriority.high
         modules := (high_coupling.take 3).map (·.module) }]
  let recs := recs ++
    [{ category := RecCategory.dependency_inversion, priority := RecPriority.medium }]
  let low_abstraction := graph.nodes.filter (fun kv =>
    decide (kv.2.abstraction < (0.2 : ℚ) ∧ kv.2.instability > (0.5 : ℚ)))
  if low_abstraction.isEmpty then recs
  else recs ++
    [{ category := RecCategory.increase_abstraction
       priority := RecPriority.medium
       modules := low_abstraction.map (·.2.module_name) }]

/-- The `analyze_coupling` result record. -/
structure CouplingReport where
  summary : Option CouplingSummary
  high_coupling : List HighCouplingEntry
  violations : List Violation
  recommendations : List Recommendation
  deriving DecidableEq, Repr

/-- `analyze_coupling`: summary, high-coupling list (default threshold
10), violations, recommendations. -/
def analyze_coupling (graph : DependencyGraph) : CouplingReport :=
  { summary := calculate_summary graph
    high_coupling := identify_high_coupling_modules graph 10
    violations := detect_architecture_violations graph
    recommendations := generate_recommendations graph }

/-! ## Concrete inputs used by scenario theorems -/

/-- Record `A imports B`. -/
def recAB : Dependency :=
  { source_module := "a".toList, target_module := "b".toList
    dependency_type := DependencyType.IMPORT }

/-- Record `B imports A`. -/
def recBA : Dependency :=
  { source_module := "b".toList, target_module := "a".toList
    dependency_type := DependencyType.IMPORT }

/-- Record `A calls B`: same endpoints as `recAB`, different kind. -/
def recAB_call : Dependency :=
  { source_module := "a".toList, target_module := "b".toList
    dependency_type := DependencyType.CALL }

/-- A record whose source name is changed by normalization. -/
def rec_dotted : Dependency :=
  { source_module := "a.b".toList, target_module := "c".toList
    dependency_type := DependencyType.IMPORT }

/-- A record whose source name starts with `'.'`. -/
def rec_dot_foo : Dependency :=
  { source_module := ".foo".toList, target_module := "bar".toList
    dependency_type := DependencyType.IMPORT }

/-- Registry of the two-cycle scenario after the metrics pass. -/
def m_two_cycle : Modules := calculate_metrics (build_modules [recAB, recBA])

/-- Graph of the two-cycle scenario. -/
def g_two_cycle : DependencyGraph := build_graph_structure m_two_cycle

/-- The post-metrics node the `c1` witness instantiates: metrics of a
fresh node (`Ca = Ce = 0`, instability `0`, distance `|0 + 0 - 1| = 1`). -/
def metrics_demo_node : ModuleDependencyInfo :=
  { module_name := "a".toList, distance := 1 }

/-! ## Spec-side step functions for the normalization order (C2) -/

/-- Spec §4.1, step 1: truncate at the first `'.'` when one occurs. -/
def spec_dot_truncate (s : Str) : Str :=
  if s.contains '.' then s.takeWhile (· != '.') else s

/-- Spec §4.1, step 2: strip each fixed-table entry found at the head. -/
def spec_strip_known (s : Str) : Str :=
  module_prefixes.foldl (fun n p => if p.isPrefixOf n then n.drop p.length else n) s

/-- Spec §4.1, step 3: keep the segment before the first `'/'`. -/
def spec_before_slash (s : Str) : Str :=
  if s.contains '/' then s.takeWhile (· != '/') else s

/-- A record whose two raw names differ but normalize to the same
module, i.e. a post-normalization self-loop. -/
def rec_self : Dependency :=
  { source_module := "x.y".toList, target_module := "x.z".toList
    dependency_type := DependencyType.IMPORT }

/-- No stored record, in any node's outgoing or incoming list, is a
self-loop: its endpoints differ. -/
def no_self_edges (m : Modules) : Prop :=
  ∀ kv ∈ m,
    (∀ d ∈ kv.2.dependencies, d.source_module ≠ d.target_module) ∧
    (∀ d ∈ kv.2.dependents, d.source_module ≠ d.target_module)

/-- The record actually stored in the source node's `dependencies` list
when `_add_dependency` appends: the caller's record with both endpoint
names overwritten by their normalized values. -/
def forward_record (r : Dependency) : Dependency :=
  { r with
    source_module := normalize_module_name r.source_module
    target_module := normalize_module_name r.target_module }

/-- The mirrored `reverse_dep` record `_add_dependency` may append to
the target node's `dependents` list (its `description` defaults to ""). -/
def reverse_record (r : Dependency) : Dependency :=
  { source_module := normalize_module_name r.target_module
    target_module := normalize_module_name r.source_module
    dependency_type := r.dependency_type
    strength := r.strength
    file_path := r.file_path
    line_number := r.line_number
    element_name := r.element_name }

/-- The fold of `find_min_idx`, with the index list as the last
argument for induction. -/
def fold_min (c : List Str) (acc : Nat) (l : List Nat) : Nat :=
  l.foldl (fun min_idx i =>
    if strLt (c.getD i []) (c.getD min_idx []) then i else min_idx) acc

/-! ## Association-list (dict) lemmas -/

theorem mem_ensure_node {kv : Str × ModuleDependencyInfo} {m : Modules} {n : Str}
    (h : kv ∈ ensure_node m n) : kv ∈ m ∨ kv = (n, fresh_node n) := by
  unfold ensure_node at h
  split_ifs at h
  · exact Or.inl h
  · rcases List.mem_append.mp h with h | h
    · exact Or.inl h
    · exact Or.inr (List.mem_singleton.mp h)

theorem mem_dict_modify {kv : Str × ModuleDependencyInfo} {m : Modules} {k : Str}
    {f : ModuleDependencyInfo → ModuleDependencyInfo}
    (h : kv ∈ dict_modify m k f) : kv ∈ m ∨ ∃ kv' ∈ m, kv = (kv'.1, f kv'.2) := by
  induction m with
  | nil => simp [dict_modify] at h
  | cons hd tl ih =>
    unfold dict_modify at h
    split_ifs at h
    · rcases List.mem_cons.mp h with h | h
      · exact Or.inr ⟨hd, List.mem_cons_self hd tl, h⟩
      · exact Or.inl (List.mem_cons_of_mem hd h)
    · rcases List.mem_cons.mp h with h | h
      · exact Or.inl (h ▸ List.mem_cons_self hd tl)
      · rcases ih h with h | ⟨kv', hkv', rfl⟩
        · exact Or.inl (List.mem_cons_of_mem hd h)
        · exact Or.inr ⟨kv', List.mem_cons_of_mem hd hkv', rfl⟩

theorem ensure_node_of_isSome {m : Modules} {n : Str}
    (h : (dict_get m n).isSome) : ensure_node m n = m := by
  unfold ensure_node
  rw [if_pos h]

theorem dict_get_append (m l : Modules) (k : Str) :
    dict_get (m ++ l) k = ((dict_get m k).map some).getD (dict_get l k) := by
  induction m with
  | nil => simp [dict_get]
  | cons hd tl ih =>
    by_cases h : hd.1 = k <;> simp [dict_get, h, ih]

theorem dict_get_ensure_node_self (m : Modules) (n : Str) :
    dict_get (ensure_node m n) n = some ((dict_get m n).getD (fresh_node n)) := by
  unfold ensure_node
  split_ifs with h
  · obtain ⟨v, hv⟩ := Option.isSome_iff_exists.mp h
    rw [hv]
    rfl
  · rw [dict_get_append]
    rw [Option.not_isSome_iff_eq_none.mp h]
    simp [dict_get]

theorem dict_get_ensure_node_ne (m : Modules) (n k : Str) (h : k ≠ n) :
    dict_get (ensure_node m n) k = dict_get m k := by
  unfold ensure_node
  split_ifs
  · rfl
  · rw [dict_get_append]
    cases hg : dict_get m k
    · simp [dict_get, h, Ne.symm h]
    · rfl

theorem dict_get_modify_self (m : Modules) (k : Str)
    (f : ModuleDependencyInfo → ModuleDependencyInfo) :
    dict_get (dict_modify m k f) k = (dict_get m k).map f := by
  induction m with
  | nil => simp [dict_modify, dict_get]
  | cons hd tl ih =>
    by_cases h : hd.1 = k <;> simp [dict_modify, dict_get, h, ih]

theorem dict_get_modify_ne (m : Modules) (k : Str)
    (f : ModuleDependencyInfo → ModuleDependencyInfo) (k' : Str) (h : k' ≠ k) :
    dict_get (dict_modify m k f) k' = dict_get m k' := by
  induction m with
  | nil => simp [dict_modify, dict_get]
  | cons hd tl ih =>
    by_cases hk : hd.1 = k
    · subst hk
      simp [dict_modify, dict_get, Ne.symm h, ih]
    · by_cases hk' : hd.1 = k' <;> simp [dict_modify, dict_get, hk, hk', h, ih]

theorem filter_isEmpty_false_of_mem {α : Type} {l : List α} {p : α → Bool} {a : α}
    (ha : a ∈ l) (hp : p a = true) : (l.filter p).isEmpty = false := by
  have hm : a ∈ l.filter p := List.mem_filter.mpr ⟨ha, hp⟩
  cases hfil : l.filter p with
  | nil => rw [hfil] at hm; cases hm
  | cons x xs => rfl

theorem exists_mem_of_filter_not_empty {α : Type} {l : List α} {p : α → Bool}
    (h : ¬(l.filter p).isEmpty = true) : ∃ a ∈ l, p a = true := by
  cases hfil : l.filter p with
  | nil => rw [hfil] at h; exact absurd rfl h
  | cons x xs =>
    have hx : x ∈ l.filter p := by rw [hfil]; exact List.mem_cons_self x xs
    exact ⟨x, (List.mem_filter.mp hx).1, (List.mem_filter.mp hx).2⟩

/-- When both endpoints already have nodes, the source node already has
a record with the same `(target, kind)` and the target node already has
a dependent entry for the source, `_add_dependency` is a no-op on both
the registry and the record. -/
theorem add_dependency_absorbed (m : Modules) (r : Dependency)
    (hne : normalize_module_name r.source_module ≠ normalize_module_name r.target_module)
    (info_s info_t : ModuleDependencyInfo)
    (hgs : dict_get m (normalize_module_name r.source_module) = some info_s)
    (hgt : dict_get m (normalize_module_name r.target_module) = some info_t)
    (hds : ∃ d ∈ info_s.dependencies,
      d.target_module = normalize_module_name r.target_module ∧
      d.dependency_type = r.dependency_type)
    (hdt : ∃ d ∈ info_t.dependents,
      d.target_module = normalize_module_name r.source_module) :
    add_dependency m r = (m, r) := by
  have he1 : ensure_node m (normalize_module_name r.source_module) = m :=
    ensure_node_of_isSome (by rw [hgs]; rfl)
  have he2 : ensure_node m (normalize_module_name r.target_module) = m :=
    ensure_node_of_isSome (by rw [hgt]; rfl)
  have hcond_s : ¬∀ d ∈ info_s.dependencies,
      d.target_module = normalize_module_name r.target_module →
      ¬d.dependency_type = r.dependency_type := by
    obtain ⟨d, hdm, h1, h2⟩ := hds
    exact fun hall => hall d hdm h1 h2
  have hcond_t : ¬∀ d ∈ info_t.dependents,
      ¬d.target_module = normalize_module_name r.source_module := by
    obtain ⟨d, hdm, h1⟩ := hdt
    exact fun hall => hall d hdm h1
  simp only [add_dependency]
  rw [if_neg hne]
  simp [he1, he2, hgs, hgt, hcond_s, hcond_t]

/-- After one `_add_dependency` call with distinct normalized
endpoints, both nodes exist, the source node has a matching
`(target, kind)` record and the target node has a dependent entry for
the source. -/
theorem add_dependency_saturates (m : Modules) (r : Dependency)
    (hne : normalize_module_name r.source_module ≠ normalize_module_name r.target_module) :
    ∃ info_s info_t,
      dict_get (add_dependency m r).1 (normalize_module_name r.source_module) =
        some info_s ∧
      dict_get (add_dependency m r).1 (normalize_module_name r.target_module) =
        some info_t ∧
      (∃ d ∈ info_s.dependencies,
        d.target_module = normalize_module_name r.target_module ∧
        d.dependency_type = r.dependency_type) ∧
      (∃ d ∈ info_t.dependents,
        d.target_module = normalize_module_name r.source_module) := by
  have hbs : dict_get
      (ensure_node (ensure_node m (normalize_module_name r.source_module))
        (normalize_module_name r.target_module))
      (normalize_module_name r.source_module) =
      some ((dict_get m (normalize_module_name r.source_module)).getD
        (fresh_node (normalize_module_name r.source_module))) := by
    rw [dict_get_ensure_node_ne _ _ _ hne, dict_get_ensure_node_self]
  have hbt0 : dict_get
      (ensure_node (ensure_node m (normalize_module_name r.source_module))
        (normalize_module_name r.target_module))
      (normalize_module_name r.target_module) =
      some ((dict_get m (normalize_module_name r.target_module)).getD
        (fresh_node (normalize_module_name r.target_module))) := by
    rw [dict_get_ensure_node_self, dict_get_ensure_node_ne _ _ _ (Ne.symm hne)]
  simp only [add_dependency]
  rw [if_neg hne]
  rw [hbs]
  simp only [Option.getD_some]
  split_ifs with h1 h2 h3
  · -- forward appended, reverse appended
    exact ⟨_, _,
      by rw [dict_get_modify_ne _ _ _ _ hne, dict_get_modify_self, hbs]; rfl,
      by rw [dict_get_modify_self, dict_get_modify_ne _ _ _ _ (Ne.symm hne), hbt0]; rfl,
      ⟨forward_record r,
        List.mem_append_right _ (List.mem_singleton_self _), rfl, rfl⟩,
      ⟨reverse_record r,
        List.mem_append_right _ (List.mem_singleton_self _), rfl⟩⟩
  · -- forward appended, reverse already present
    rw [dict_get_modify_ne _ _ _ _ (Ne.symm hne), hbt0] at h2
    simp only [Option.getD_some] at h2
    obtain ⟨d, hdm, hq⟩ := exists_mem_of_filter_not_empty h2
    exact ⟨_, _,
      by rw [dict_get_modify_self, hbs]; rfl,
      by rw [dict_get_modify_ne _ _ _ _ (Ne.symm hne), hbt0],
      ⟨forward_record r,
        List.mem_append_right _ (List.mem_singleton_self _), rfl, rfl⟩,
      ⟨d, hdm, of_decide_eq_true hq⟩⟩
  · -- forward already present, reverse appended
    obtain ⟨d, hdm, hp⟩ := exists_mem_of_filter_not_empty h1
    exact ⟨_, _,
      by rw [dict_get_modify_ne _ _ _ _ hne, hbs],
      by rw [dict_get_modify_self, hbt0]; rfl,
      ⟨d, hdm, (of_decide_eq_true hp).1, (of_decide_eq_true hp).2⟩,
      ⟨reverse_record r,
        List.mem_append_right _ (List.mem_singleton_self _), rfl⟩⟩
  · -- both already present
    obtain ⟨d, hdm, hp⟩ := exists_mem_of_filter_not_empty h1
    rw [hbt0] at h3
    simp only [Option.getD_some] at h3
    obtain ⟨e, hem, hq⟩ := exists_mem_of_filter_not_empty h3
    exact ⟨_, _, hbs, hbt0,
      ⟨d, hdm, (of_decide_eq_true hp).1, (of_decide_eq_true hp).2⟩,
      ⟨e, hem, of_decide_eq_true hq⟩⟩

/-! ## Lexicographic-order lemmas for cycle canonicalization -/

theorem strLt_irrefl (a : Str) : strLt a a = false := by
  induction a with
  | nil => rfl
  | cons x xs ih => simp [strLt, ih, lt_irrefl]

theorem strLt_trans {a b c : Str} (h1 : strLt a b = true) (h2 : strLt b c = true) :
    strLt a c = true := by
  induction a generalizing b c with
  | nil =>
    cases b with
    | nil => simp [strLt] at h1
    | cons y ys =>
      cases c with
      | nil => simp [strLt] at h2
      | cons z zs => rfl
  | cons x xs ih =>
    cases b with
    | nil => simp [strLt] at h1
    | cons y ys =>
      cases c with
      | nil => simp [strLt] at h2
      | cons z zs =>
        by_cases hxy : x < y
        · by_cases hyz : y < z
          · simp [strLt, lt_trans hxy hyz]
          · simp only [strLt, if_neg hyz] at h2
            by_cases hyz2 : y = z
            · subst hyz2
              simp [strLt, hxy]
            · simp [if_neg hyz2] at h2
        · simp only [strLt, if_neg hxy] at h1
          by_cases hxy2 : x = y
          · subst hxy2
            simp only [if_pos rfl] at h1
            by_cases hxz : x < z
            · simp [strLt, hxz]
            · simp only [strLt, if_neg hxz] at h2 ⊢
              by_cases hxz2 : x = z
              · subst hxz2
                simp only [if_pos rfl] at h2 ⊢
                exact ih h1 h2
              · simp [if_neg hxz2] at h2
          · simp [if_neg hxy2] at h1

theorem strLt_conn : ∀ {a b : Str}, strLt a b = false → strLt b a = true ∨ b = a := by
  intro a
  induction a with
  | nil =>
    intro b h
    cases b with
    | nil => exact Or.inr rfl
    | cons y ys => simp [strLt] at h
  | cons x xs ih =>
    intro b h
    cases b with
    | nil => exact Or.inl rfl
    | cons y ys =>
      by_cases hxy : x < y
      · simp [strLt, hxy] at h
      · by_cases hxy2 : x = y
        · subst hxy2
          simp only [strLt, if_neg (lt_irrefl x), if_pos rfl] at h
          rcases ih h with h' | h'
          · exact Or.inl (by simp [strLt, lt_irrefl, h'])
          · exact Or.inr (by rw [h'])
        · have hyx : y < x :=
            lt_of_le_of_ne (le_of_not_lt hxy) (fun e => hxy2 e.symm)
          exact Or.inl (by simp [strLt, hyx])

theorem fold_min_spec (c : List Str) :
    ∀ (l : List Nat) (acc : Nat),
      (fold_min c acc l = acc ∨ fold_min c acc l ∈ l) ∧
      strLt (c.getD acc []) (c.getD (fold_min c acc l) []) = false ∧
      ∀ j ∈ l, strLt (c.getD j []) (c.getD (fold_min c acc l) []) = false := by
  intro l
  induction l with
  | nil =>
    intro acc
    exact ⟨Or.inl rfl, strLt_irrefl _, by intro j hj; cases hj⟩
  | cons i l ih =>
    intro acc
    by_cases hlt : strLt (c.getD i []) (c.getD acc []) = true
    · have hstep : fold_min c acc (i :: l) = fold_min c i l := by
        simp only [fold_min, List.foldl_cons]
        rw [if_pos hlt]
      obtain ⟨ha, hb, hc⟩ := ih i
      refine ⟨?_, ?_, ?_⟩
      · rw [hstep]
        rcases ha with h | h
        · exact Or.inr (by rw [h]; exact List.mem_cons_self i l)
        · exact Or.inr (List.mem_cons_of_mem i h)
      · rw [hstep]
        cases hx : strLt (c.getD acc []) (c.getD (fold_min c i l) []) with
        | false => rfl
        | true =>
          have ht := strLt_trans hlt hx
          rw [ht] at hb
          exact Bool.noConfusion hb
      · rw [hstep]
        intro j hj
        rcases List.mem_cons.mp hj with rfl | hj
        · exact hb
        · exact hc j hj
    · have hstep : fold_min c acc (i :: l) = fold_min c acc l := by
        simp only [fold_min, List.foldl_cons]
        rw [if_neg hlt]
      have hlt' : strLt (c.getD i []) (c.getD acc []) = false := by
        cases hx : strLt (c.getD i []) (c.getD acc [])
        · rfl
        · exact absurd hx hlt
      obtain ⟨ha, hb, hc⟩ := ih acc
      refine ⟨?_, ?_, ?_⟩
      · rw [hstep]
        rcases ha with h | h
        · exact Or.inl h
        · exact Or.inr (List.mem_cons_of_mem i h)
      · rw [hstep]
        exact hb
      · rw [hstep]
        intro j hj
        rcases List.mem_cons.mp hj with rfl | hj
        · cases hx : strLt (c.getD j []) (c.getD (fold_min c acc l) []) with
          | false => rfl
          | true =>
            rcases strLt_conn hlt' with hgt | heq
            · have ht := strLt_trans hgt hx
              rw [ht] at hb
              exact Bool.noConfusion hb
            · rw [heq, hx] at hb
              exact Bool.noConfusion hb
        · exact hc j hj

/-- `find_min_idx` lands strictly before the closing duplicate and no
entry before the closing duplicate is lexicographically smaller. -/
theorem find_min_idx_spec (c : List Str) (h3 : 3 ≤ c.length) :
    find_min_idx c < c.length - 1 ∧
    ∀ j, j < c.length - 1 →
      strLt (c.getD j []) (c.getD (find_min_idx c) []) = false := by
  have he : find_min_idx c = fold_min c 0 (List.range' 1 (c.length - 2)) := rfl
  obtain ⟨ha, hb, hc⟩ := fold_min_spec c (List.range' 1 (c.length - 2)) 0
  constructor
  · rw [he]
    rcases ha with h0 | hmem
    · rw [h0]; omega
    · have := List.mem_range'_1.mp hmem
      omega
  · intro j hj
    rw [he]
    rcases Nat.eq_zero_or_pos j with rfl | hjpos
    · exact hb
    · exact hc j (List.mem_range'_1.mpr ⟨hjpos, by omega⟩)

theorem mem_of_mem_normalize_cycle {c : List Str} (h3 : 3 ≤ c.length) :
    ∀ x ∈ normalize_cycle c, x ∈ c := by
  intro x hx
  have hm := (find_min_idx_spec c h3).1
  rw [normalize_cycle, if_neg (by omega)] at hx
  rcases List.mem_append.mp hx with hx2 | hxg
  · rcases List.mem_append.mp hx2 with hxa | hxb
    · exact (List.dropLast_sublist c).subset (List.drop_subset _ _ hxa)
    · exact List.take_subset _ _ hxb
  · rw [List.mem_singleton.mp hxg, List.getD_eq_getElem c [] (by omega)]
    exact List.getElem_mem _

theorem dropLast_subset_normalize_cycle {c : List Str} (h3 : 3 ≤ c.length) :
    ∀ x ∈ c.dropLast, x ∈ normalize_cycle c := by
  intro x hx
  have hm := (find_min_idx_spec c h3).1
  have hdl : c.dropLast.length = c.length - 1 := List.length_dropLast c
  have hne : c ≠ [] := by
    intro e
    rw [e] at h3
    simp at h3
  rw [normalize_cycle, if_neg (by omega)]
  rw [← List.take_append_drop (find_min_idx c) c.dropLast] at hx
  rcases List.mem_append.mp hx with h | h
  · have he : c.dropLast.take (find_min_idx c) = c.take (find_min_idx c) := by
      rw [List.dropLast_eq_take, List.take_take]
      congr 1
      omega
    exact List.mem_append.mpr (Or.inl (List.mem_append.mpr (Or.inr (he ▸ h))))
  · exact List.mem_append.mpr (Or.inl (List.mem_append.mpr (Or.inl h)))

theorem getLast_mem_dropLast {c : List Str} (hne : c ≠ []) (h2 : 2 ≤ c.length)
    (hclosed : c.head? = c.getLast?) : c.getLast hne ∈ c.dropLast := by
  cases c with
  | nil => exact absurd rfl hne
  | cons a t =>
    cases t with
    | nil => simp at h2
    | cons b t2 =>
      have h1 : (a :: b :: t2).head? = some a := rfl
      have hg := List.getLast?_eq_getLast_of_ne_nil (l := a :: b :: t2) (by simp)
      rw [h1, hg] at hclosed
      have hga : (a :: b :: t2).getLast hne = a := (Option.some.inj hclosed).symm
      rw [hga]
      exact List.mem_cons_self a _

theorem subset_normalize_cycle {c : List Str} (h3 : 3 ≤ c.length)
    (hclosed : c.head? = c.getLast?) : ∀ x ∈ c, x ∈ normalize_cycle c := by
  have hne : c ≠ [] := by
    intro e
    rw [e] at h3
    simp at h3
  intro x hx
  rw [← List.dropLast_append_getLast hne] at hx
  rcases List.mem_append.mp hx with hxd | hxl
  · exact dropLast_subset_normalize_cycle h3 x hxd
  · rw [List.mem_singleton.mp hxl]
    exact dropLast_subset_normalize_cycle h3 _
      (getLast_mem_dropLast hne (by omega) hclosed)

/-! ## Claim theorems -/

/-- **C2.** `normalize` applies its three steps in exactly the order
dot-truncation, then known-table stripping, then before-slash
truncation (for every non-empty name, the `"root"` default aside), so
`normalize("src.foo.bar")` is `"src"`, not `"foo"`. -/
theorem c2_normalize_step_order :
    (∀ s : Str, s ≠ [] →
      normalize_module_name s =
        spec_before_slash (spec_strip_known (spec_dot_truncate s))) ∧
    normalize_module_name "src.foo.bar".toList = "src".toList ∧
    normalize_module_name "src.foo.bar".toList ≠ "foo".toList := by
  refine ⟨?_, by decide, by decide⟩
  intro s hs
  unfold normalize_module_name spec_before_slash spec_strip_known spec_dot_truncate
  rw [if_neg (by simp [hs])]

/-- Witness for **C2** at `"src.foo.bar"`. -/
theorem c2_normalize_step_order_witness :
    normalize_module_name "src.foo.bar".toList =
      spec_before_slash (spec_strip_known (spec_dot_truncate "src.foo.bar".toList)) :=
  c2_normalize_step_order.1 "src.foo.bar".toList (by decide)

/-- **C4.** Scenario A: modules `a`, `b` each importing the other once
give exactly one detected cycle; its detail entry has two edges and
critical severity; after the metrics pass both instabilities are `0.5`. -/
theorem c4_two_cycle_scenario :
    detect_cycles g_two_cycle = [["a".toList, "b".toList, "a".toList]] ∧
    get_cycle_details (detect_cycles g_two_cycle) =
      [{ cycle_id := 1, modules := ["a".toList, "b".toList, "a".toList]
         length := 2, severity := Severity.critical }] ∧
    (dict_get m_two_cycle "a".toList).map (·.instability) = some (1 / 2) ∧
    (dict_get m_two_cycle "b".toList).map (·.instability) = some (1 / 2) := by
  refine ⟨by decide, by decide, by with_unfolding_all rfl, by with_unfolding_all rfl⟩

/-- **C6.** The severity of a detected cycle is a function of its edge
count `L = len(modules) - 1` alone: `2 → critical`, `3 → high`,
`4/5 → medium`, `>5 → low`. -/
theorem c6_severity_depends_only_on_length :
    (∀ c1 c2 : List Str, c1.length = c2.length →
      assess_severity c1 = assess_severity c2) ∧
    (∀ c : List Str,
      (c.length - 1 = 2 → assess_severity c = Severity.critical) ∧
      (c.length - 1 = 3 → assess_severity c = Severity.high) ∧
      (c.length - 1 = 4 ∨ c.length - 1 = 5 → assess_severity c = Severity.medium) ∧
      (5 < c.length - 1 → assess_severity c = Severity.low)) ∧
    (∀ cycles : List (List Str), ∀ d ∈ get_cycle_details cycles,
      d.length = d.modules.length - 1 ∧ d.severity = assess_severity d.modules) := by
  refine ⟨?_, ?_, ?_⟩
  · intro c1 c2 h
    unfold assess_severity
    rw [h]
  · intro c
    refine ⟨?_, ?_, ?_, ?_⟩ <;>
      · intro h
        simp only [assess_severity]
        split_ifs <;> first | rfl | omega
  · intro cycles d hd
    unfold get_cycle_details at hd
    simp only [List.mem_map] at hd
    obtain ⟨p, _, rfl⟩ := hd
    exact ⟨rfl, rfl⟩

/-- Witness for **C6** on a concrete two-edge cycle. -/
theorem c6_severity_depends_only_on_length_witness :
    assess_severity ["a".toList, "b".toList, "a".toList] = Severity.critical :=
  (c6_severity_depends_only_on_length.2.1 ["a".toList, "b".toList, "a".toList]).1
    (by decide)

/-- **C9 counterexample.** On a node-less graph the summary is the empty
dict (`none`), not a dict of zero-valued fields. -/
theorem c9_counterexample :
    (analyze_coupling { nodes := [], edges := [] }).summary = none ∧
    (analyze_coupling { nodes := [], edges := [] }).summary ≠
      some
        { total_modules := 0, total_dependencies := 0
          average_instability := 0, average_abstraction := 0
          instability_distribution := { stable := 0, moderate := 0, unstable := 0 } } := by
  refine ⟨by decide, by decide⟩

/-- **C9 (amended).** On a node-less graph the coupling analysis
completes: the summary is empty (`{}`), the high-coupling and violation
lists are empty, and only the static `dependency_inversion`
recommendation is emitted. -/
theorem c9_empty_graph_analysis :
    analyze_coupling { nodes := [], edges := [] } =
      { summary := none, high_coupling := [], violations := []
        recommendations :=
          [{ category := RecCategory.dependency_inversion
             priority := RecPriority.medium }] } := by
  decide

/-- **C8 counterexample.** `_add_dependency` mutates the caller's
record: inserting `{source: "a.b", target: "c"}` overwrites the
caller-visible `source_module` with the normalized `"a"`. -/
theorem c8_counterexample :
    (add_dependency [] rec_dotted).2.source_module ≠ rec_dotted.source_module ∧
    (add_dependency [] rec_dotted).2.source_module = "a".toList := by
  refine ⟨by decide, by decide⟩

/-- **C8 (amended).** After `_add_dependency`, every field of the
caller's record except the two endpoint names is unchanged; each
endpoint name is either unchanged or overwritten with its normalized
value. -/
theorem c8_record_mutation_bounded (m : Modules) (r : Dependency) :
    ((add_dependency m r).2.dependency_type = r.dependency_type) ∧
    ((add_dependency m r).2.strength = r.strength) ∧
    ((add_dependency m r).2.file_path = r.file_path) ∧
    ((add_dependency m r).2.line_number = r.line_number) ∧
    ((add_dependency m r).2.element_name = r.element_name) ∧
    ((add_dependency m r).2.description = r.description) ∧
    ((add_dependency m r).2.source_module = r.source_module ∨
      (add_dependency m r).2.source_module = normalize_module_name r.source_module) ∧
    ((add_dependency m r).2.target_module = r.target_module ∨
      (add_dependency m r).2.target_module = normalize_module_name r.target_module) := by
  simp only [add_dependency]
  split_ifs <;> simp

/-- **C10.** Any non-empty name starting with `'.'` normalizes to the
empty string (the `"root"` sentinel only applies to the empty input),
and `_add_dependency` then creates and links a node named `""`. -/
theorem c10_leading_dot_yields_empty_name :
    (∀ s : Str, s.head? = some '.' → normalize_module_name s = []) ∧
    normalize_module_name [] = "root".toList ∧
    (dict_get (add_dependency [] rec_dot_foo).1 []).map
      (fun i => i.dependencies.map (·.target_module)) = some ["bar".toList] ∧
    (dict_get (add_dependency [] rec_dot_foo).1 "bar".toList).map
      (fun i => i.dependents.map (·.target_module)) = some [[]] := by
  refine ⟨?_, by decide, by decide, by decide⟩
  intro s h
  cases s with
  | nil => simp at h
  | cons c t =>
    have hc : c = '.' := by simpa using h
    subst hc
    unfold normalize_module_name
    rw [if_neg (by simp)]
    simp [List.takeWhile, module_prefixes, List.isPrefixOf]

/-- Witness for **C10** at `".foo"`. -/
theorem c10_leading_dot_yields_empty_name_witness :
    normalize_module_name ".foo".toList = [] :=
  c10_leading_dot_yields_empty_name.1 ".foo".toList (by decide)

/-- **C1 counterexample.** After a single `addDependency` call and no
metrics pass, node `b` has `afferent_coupling = 0` while its
`dependents` list already has one entry, so the claimed equality does
not hold after arbitrary `addDependency` sequences. -/
theorem c1_counterexample :
    (dict_get (build_modules [recAB]) "b".toList).map (·.afferent_coupling) = some 0 ∧
    (dict_get (build_modules [recAB]) "b".toList).map (·.dependents.length) = some 1 := by
  refine ⟨by decide, by decide⟩

/-- **C1 (amended).** After the `_calculate_metrics` pass, every node's
`afferent_coupling` equals the length of its `dependents` list and its
`efferent_coupling` equals the length of its `dependencies` list,
recomputed from the current edge lists. -/
theorem c1_coupling_counts_after_metrics (m : Modules) :
    ∀ kv ∈ calculate_metrics m,
      kv.2.afferent_coupling = kv.2.dependents.length ∧
      kv.2.efferent_coupling = kv.2.dependencies.length := by
  intro kv hkv
  simp only [calculate_metrics, List.map_map, List.mem_map] at hkv
  obtain ⟨⟨k, info⟩, hmem, rfl⟩ := hkv
  exact ⟨rfl, rfl⟩

theorem no_self_edges_ensure {m : Modules} (n : Str) (h : no_self_edges m) :
    no_self_edges (ensure_node m n) := by
  intro kv hkv
  rcases mem_ensure_node hkv with hm | rfl
  · exact h kv hm
  · exact ⟨by simp [fresh_node], by simp [fresh_node]⟩

theorem no_self_edges_append_dep {m : Modules} {k : Str} {d : Dependency}
    (h : no_self_edges m) (hd : d.source_module ≠ d.target_module) :
    no_self_edges (dict_modify m k
      (fun info => { info with dependencies := info.dependencies ++ [d] })) := by
  intro kv hkv
  rcases mem_dict_modify hkv with hm | ⟨kv', hkv', rfl⟩
  · exact h kv hm
  · refine ⟨?_, ?_⟩
    · intro e he
      rcases List.mem_append.mp he with he | he
      · exact (h kv' hkv').1 e he
      · rw [List.mem_singleton.mp he]
        exact hd
    · intro e he
      exact (h kv' hkv').2 e he

theorem no_self_edges_append_dependent {m : Modules} {k : Str} {d : Dependency}
    (h : no_self_edges m) (hd : d.source_module ≠ d.target_module) :
    no_self_edges (dict_modify m k
      (fun info => { info with dependents := info.dependents ++ [d] })) := by
  intro kv hkv
  rcases mem_dict_modify hkv with hm | ⟨kv', hkv', rfl⟩
  · exact h kv hm
  · refine ⟨?_, ?_⟩
    · intro e he
      exact (h kv' hkv').1 e he
    · intro e he
      rcases List.mem_append.mp he with he | he
      · exact (h kv' hkv').2 e he
      · rw [List.mem_singleton.mp he]
        exact hd

theorem no_self_edges_add (m : Modules) (r : Dependency) (h : no_self_edges m) :
    no_self_edges (add_dependency m r).1 := by
  by_cases hst :
    normalize_module_name r.source_module = normalize_module_name r.target_module
  · simp only [add_dependency]
    rw [if_pos hst]
    exact h
  · have h2 : no_self_edges
      (ensure_node (ensure_node m (normalize_module_name r.source_module))
        (normalize_module_name r.target_module)) :=
      no_self_edges_ensure _ (no_self_edges_ensure _ h)
    simp only [add_dependency]
    rw [if_neg hst]
    split_ifs <;>
      first
      | exact no_self_edges_append_dependent (no_self_edges_append_dep h2 hst)
          (Ne.symm hst)
      | exact no_self_edges_append_dep h2 hst
      | exact no_self_edges_append_dependent h2 (Ne.symm hst)
      | exact h2

/-- **C7.** A record whose endpoints normalize to the same name leaves
the registry (and the record) entirely unchanged, and consequently
after any sequence of `addDependency` calls no stored record — in any
`dependencies` or `dependents` list — has equal endpoints. -/
theorem c7_no_self_loops :
    (∀ (m : Modules) (r : Dependency),
      normalize_module_name r.source_module = normalize_module_name r.target_module →
      add_dependency m r = (m, r)) ∧
    ∀ records : List Dependency, no_self_edges (build_modules records) := by
  constructor
  · intro m r h
    simp only [add_dependency]
    rw [if_pos h]
  · intro records
    suffices h : ∀ m, no_self_edges m →
        no_self_edges (records.foldl (fun m r => (add_dependency m r).1) m) by
      exact h [] (by intro kv hkv; cases hkv)
    induction records with
    | nil => exact fun m hm => hm
    | cons r rest ih => exact fun m hm => ih _ (no_self_edges_add m r hm)

/-- Witness for **C7**: a record whose distinct raw names `"x.y"`,
`"x.z"` both normalize to `"x"` is dropped without any state change. -/
theorem c7_no_self_loops_witness :
    add_dependency [] rec_self = ([], rec_self) :=
  c7_no_self_loops.1 [] rec_self (by decide)

/-- **C3.** Dedup is asymmetric: adding the same record twice is a
no-op the second time (forward dedup key `(target, kind)`, reverse key
`target` both already present), while two records differing only in
kind produce two `dependencies` entries on the source but a single
`dependents` entry on the target (reverse dedup ignores kind). -/
theorem c3_asymmetric_dedup :
    (∀ (m : Modules) (r : Dependency),
      add_dependency (add_dependency m r).1 r = ((add_dependency m r).1, r)) ∧
    (∀ r1 r2 : Dependency,
      r2.source_module = r1.source_module →
      r2.target_module = r1.target_module →
      r2.dependency_type ≠ r1.dependency_type →
      normalize_module_name r1.source_module ≠ normalize_module_name r1.target_module →
      (dict_get (build_modules [r1, r2]) (normalize_module_name r1.source_module)).map
        (·.dependencies.length) = some 2 ∧
      (dict_get (build_modules [r1, r2]) (normalize_module_name r1.target_module)).map
        (·.dependents.length) = some 1) := by
  constructor
  · intro m r
    by_cases hst :
      normalize_module_name r.source_module = normalize_module_name r.target_module
    · have e : add_dependency m r = (m, r) := by
        simp only [add_dependency]
        rw [if_pos hst]
      rw [e]
      exact e
    · obtain ⟨is1, it1, hgs, hgt, hds, hdt⟩ := add_dependency_saturates m r hst
      exact add_dependency_absorbed _ r hst is1 it1 hgs hgt hds hdt
  · intro r1 r2 hsrc htgt hty hne
    have hty' : ¬r1.dependency_type = r2.dependency_type := fun h => hty h.symm
    have e1 : (add_dependency [] r1).1 =
        [(normalize_module_name r1.source_module,
          { module_name := normalize_module_name r1.source_module
            dependencies := [forward_record r1] }),
         (normalize_module_name r1.target_module,
          { module_name := normalize_module_name r1.target_module
            dependents := [reverse_record r1] })] := by
      simp only [add_dependency]
      rw [if_neg hne]
      simp [ensure_node, dict_get, dict_modify, fresh_node, hne, Ne.symm hne,
        forward_record, reverse_record]
    simp only [build_modules, List.foldl]
    rw [e1]
    simp only [add_dependency]
    rw [hsrc, htgt, if_neg hne]
    simp [ensure_node, dict_get, dict_modify, fresh_node, hne, Ne.symm hne, hty',
      forward_record, reverse_record]

/-- **C5.** `_normalize_cycle` rotates a cycle (of more than two
entries) to start at its lexicographically smallest member, the final
closing duplicate excluded: the result is the rotation of
`cycle[:-1]` at an index `m` before the closing duplicate, re-closed
with `cycle[m]`, where no entry before the closing duplicate is
lexicographically smaller than `cycle[m]`.  `_unique_cycles` then
collapses any two cycles with equal member-name sets — in particular
two closed cycles over the same node set in different rotations or
directions — keeping only the first. -/
theorem c5_cycle_dedup_by_member_set :
    (∀ c : List Str, 3 ≤ c.length →
      find_min_idx c < c.length - 1 ∧
      (∀ j, j < c.length - 1 →
        strLt (c.getD j []) (c.getD (find_min_idx c) []) = false) ∧
      normalize_cycle c =
        c.dropLast.drop (find_min_idx c) ++ c.take (find_min_idx c) ++
          [c.getD (find_min_idx c) []]) ∧
    (∀ c1 c2 : List Str, 3 ≤ c1.length → 3 ≤ c2.length →
      c1.head? = c1.getLast? → c2.head? = c2.getLast? →
      (∀ x ∈ c1, x ∈ c2) → (∀ x ∈ c2, x ∈ c1) →
      unique_cycles [c1, c2] = [normalize_cycle c1]) := by
  constructor
  · intro c h3
    obtain ⟨hm, hmin⟩ := find_min_idx_spec c h3
    exact ⟨hm, hmin, by rw [normalize_cycle, if_neg (by omega)]⟩
  · intro c1 c2 h31 h32 hcl1 hcl2 h12 h21
    have hany : set_eqv (normalize_cycle c2) (normalize_cycle c1) = true := by
      rw [set_eqv, Bool.and_eq_true]
      constructor
      · rw [List.all_eq_true]
        intro x hx
        exact decide_eq_true
          (subset_normalize_cycle h31 hcl1 x (h21 x (mem_of_mem_normalize_cycle h32 x hx)))
      · rw [List.all_eq_true]
        intro x hx
        exact decide_eq_true
          (subset_normalize_cycle h32 hcl2 x (h12 x (mem_of_mem_normalize_cycle h31 x hx)))
    simp [unique_cycles, hany]

/-- Witness for **C5**: the cycles `b → c → a → b` and `a → c → b → a`
(same member set, different rotation and direction) collapse to the
canonicalized first cycle. -/
theorem c5_cycle_dedup_by_member_set_witness :
    unique_cycles [["b".toList, "c".toList, "a".toList, "b".toList],
        ["a".toList, "c".toList, "b".toList, "a".toList]] =
      [normalize_cycle ["b".toList, "c".toList, "a".toList, "b".toList]] :=
  c5_cycle_dedup_by_member_set.2
    ["b".toList, "c".toList, "a".toList, "b".toList]
    ["a".toList, "c".toList, "b".toList, "a".toList]
    (by decide) (by decide) (by decide) (by decide) (by decide) (by decide)

/-- Witness for **C3** at records `A imports B` / `A calls B`. -/
theorem c3_asymmetric_dedup_witness :
    (dict_get (build_modules [recAB, recAB_call])
      (normalize_module_name recAB.source_module)).map (·.dependencies.length) = some 2 ∧
    (dict_get (build_modules [recAB, recAB_call])
      (normalize_module_name recAB.target_module)).map (·.dependents.length) = some 1 :=
  c3_asymmetric_dedup.2 recAB recAB_call (by decide) (by decide) (by decide) (by decide)

/-- Witness for **C1 (amended)** on a one-node registry. -/
theorem c1_coupling_counts_after_metrics_witness :
    (("a".toList, metrics_demo_node) : Str × ModuleDependencyInfo).2.afferent_coupling =
      (("a".toList, metrics_demo_node) : Str × ModuleDependencyInfo).2.dependents.length ∧
    (("a".toList, metrics_demo_node) : Str × ModuleDependencyInfo).2.efferent_coupling =
      (("a".toList, metrics_demo_node) : Str × ModuleDependencyInfo).2.dependencies.length :=
  c1_coupling_counts_after_metrics [("a".toList, fresh_node "a".toList)]
    ("a".toList, metrics_demo_node)
    (List.mem_singleton.mpr (by with_unfolding_all rfl))

end DepAnalyzer
